import Mathlib

/-!
Verification of the tagex extraction core.

This file gives a shallow embedding of the tagex repository's core
(`src/tagex/core/extractor.py` and `src/tagex/core/schemas.py`) and proves
properties of the embedded definitions.

Modelling conventions:
* A parsed libcst tree is modelled by the mutual inductives `CSTNode`/`CSTBody`.
  A declaration node carries its identifier, the line reported by the
  `PositionProvider` metadata (`none` models a `KeyError` on metadata lookup),
  a `header` string (the rendered text of the declaration that is not part of
  any nested declaration, i.e. signature plus plain statements interleaved
  before the children listed in `body`), and the list of nodes nested in it.
  `CSTNode.code` models `cst.Module([node]).code`: the rendered text of a node
  is its header followed by the rendered text of its children, so the rendered
  text of a nested declaration is a substring of the rendered text of every
  enclosing declaration, exactly as for libcst's lossless rendering.
* libcst's round-trip guarantee means the raw text of a successfully parsed
  file equals the rendered text of its tree; `SrcFile.text` encodes this.
* File contents and the file system are passed explicitly: `TagExtractor.extract`
  receives the discovered files with their contents, `getPythonFiles` receives
  the list of paths that `Path.rglob` enumerates (in arbitrary file-system
  iteration order), and `validateConfig` receives a `FileSys` of path queries.
* Python strings are Lean `String`s; substring tests (Python's `in`) are
  `strContains`, written out over character lists so that they compute.
* Machine-level details (encodings, OS errors) are out of scope; an unparsable
  file carries the reason string that `cst.parse_module` would raise with.
-/

namespace Tagex

/-! ### Substring test (Python's `in` operator) -/

/-- Does the second list start with the first one? -/
def startsWithL : List Char → List Char → Bool
  | [], _ => true
  | _ :: _, [] => false
  | a :: as, b :: bs => a == b && startsWithL as bs

/-- Does `needle` occur contiguously inside the second list? -/
def containsL (needle : List Char) : List Char → Bool
  | [] => needle.isEmpty
  | c :: rest => startsWithL needle (c :: rest) || containsL needle rest

/-- Python's `needle in hay` substring test. -/
def strContains (hay needle : String) : Bool :=
  containsL needle.toList hay.toList

/-- Python's `s.endswith(suffix)` test, used for the `.py` suffix check of
`ExtractorConfig.validate_target_path`. -/
def strEndsWith (s suffix : String) : Bool :=
  startsWithL suffix.toList.reverse s.toList.reverse

/-! ### The parsed tree (libcst CST) -/

mutual
/-- One node of a parsed Python tree, as traversed by `TagCollector`.
`functionDef` models `cst.FunctionDef`, `classDef` models `cst.ClassDef`,
and `stmt` models any other statement (rendered text only, never visited by
the collector's callbacks).  `line` is the 1-based start line that
`cst.metadata.PositionProvider` reports for the node; `none` models the
`KeyError` branch of `TagCollector._check_node`. -/
inductive CSTNode where
  | functionDef (name : String) (line : Option Nat) (header : String) (body : CSTBody)
  | classDef (name : String) (line : Option Nat) (header : String) (body : CSTBody)
  | stmt (text : String)
deriving DecidableEq

/-- A sequence of sibling nodes (a suite / module body), in document order. -/
inductive CSTBody where
  | nil
  | cons (head : CSTNode) (tail : CSTBody)
deriving DecidableEq
end

mutual
/-- Rendered source text of a node, modelling `cst.Module([node]).code`. -/
def CSTNode.code : CSTNode → String
  | .functionDef _ _ header body => header ++ CSTBody.code body
  | .classDef _ _ header body => header ++ CSTBody.code body
  | .stmt text => text

/-- Rendered source text of a node sequence (concatenation in document order). -/
def CSTBody.code : CSTBody → String
  | .nil => ""
  | .cons n ns => CSTNode.code n ++ CSTBody.code ns
end

/-- A metadata line is well formed when it is 1-based, as libcst's
`PositionProvider` guarantees for every node of a parsed module. -/
def lineOK : Option Nat → Bool
  | some k => decide (1 ≤ k)
  | none => true

mutual
/-- All position metadata in the node's subtree is 1-based. -/
def CSTNode.wfPos : CSTNode → Bool
  | .functionDef _ line _ body => lineOK line && CSTBody.wfPos body
  | .classDef _ line _ body => lineOK line && CSTBody.wfPos body
  | .stmt _ => true

/-- All position metadata in the sequence is 1-based. -/
def CSTBody.wfPos : CSTBody → Bool
  | .nil => true
  | .cons n ns => CSTNode.wfPos n && CSTBody.wfPos ns
end

mutual
/-- Some declaration (function or class) in the node's subtree, the node
itself included, has the tag in its rendered text. -/
def CSTNode.anyTagged (tag : String) : CSTNode → Bool
  | .functionDef name line header body =>
      strContains (CSTNode.code (.functionDef name line header body)) tag
        || CSTBody.anyTagged tag body
  | .classDef name line header body =>
      strContains (CSTNode.code (.classDef name line header body)) tag
        || CSTBody.anyTagged tag body
  | .stmt _ => false

/-- Some declaration below the sequence has the tag in its rendered text. -/
def CSTBody.anyTagged (tag : String) : CSTBody → Bool
  | .nil => false
  | .cons n ns => CSTNode.anyTagged tag n || CSTBody.anyTagged tag ns
end

/-! ### Data model (`src/tagex/core/schemas.py`) -/

/-- `NodeCollectionResult`: one candidate produced by the collector. -/
structure NodeCollectionResult where
  name : String
  line_number : Nat
  code : String
  node_type : String
deriving DecidableEq

/-- `TaggedCode`: one match of the extraction, with its file path relative to
the configuration's base path. -/
structure TaggedCode where
  file_path : String
  name : String
  line_number : Nat
  code : String
  node_type : String
deriving DecidableEq

/-- `ExtractorConfig` after successful pydantic validation.  `is_single_file`
records `target_path.is_file()` (a property in the source, constant here
because the modelled file system does not change during a run). -/
structure ExtractorConfig where
  tag : String
  target_path : String
  include_functions : Bool := true
  include_classes : Bool := true
  file_pattern : String := "*.py"
  is_single_file : Bool := false
deriving DecidableEq

/-- `ExtractionResult`: the aggregate returned by `TagExtractor.extract`. -/
structure ExtractionResult where
  config : ExtractorConfig
  results : List TaggedCode
  processed_files : Nat
  skipped_files : List String
deriving DecidableEq

/-- `ExtractionResult.total_matches` (`len(self.results)`). -/
def ExtractionResult.total_matches (res : ExtractionResult) : Nat :=
  res.results.length

/-- One step of the `group_by_file` loop body: append `item` to the group of
its file path, creating the group (at the end, Python dict insertion order)
when absent. -/
def insertGroup : List (String × List TaggedCode) → TaggedCode → List (String × List TaggedCode)
  | [], item => [(item.file_path, [item])]
  | (k, l) :: rest, item =>
      if k = item.file_path then (k, l ++ [item]) :: rest
      else (k, l) :: insertGroup rest item

/-- Lookup in the grouped mapping; `[]` models an absent key. -/
def groupLookup : List (String × List TaggedCode) → String → List TaggedCode
  | [], _ => []
  | (k, l) :: rest, p => if k = p then l else groupLookup rest p

/-- `ExtractionResult.group_by_file`: fold the matches in discovery order into
a mapping from file path to that file's matches. -/
def ExtractionResult.group_by_file (res : ExtractionResult) : List (String × List TaggedCode) :=
  res.results.foldl insertGroup []

/-! ### The collector (`TagCollector`) -/

/-- Line number resolution of `TagCollector._check_node`: the metadata line
when it resolves, 1 on `KeyError`. -/
def lineOf : Option Nat → Nat
  | some n => n
  | none => 1

/-- `TagCollector._check_node` for a declaration node whose rendered text is
`nodeCode`: emit one candidate if the tag occurs in the text, none otherwise. -/
def checkNode (tag : String) (name : String) (line : Option Nat) (nodeCode : String)
    (node_type : String) : List NodeCollectionResult :=
  if strContains nodeCode tag then
    [{ name := name, line_number := lineOf line, code := nodeCode, node_type := node_type }]
  else []

mutual
/-- The visitor run on one node: `visit_FunctionDef` / `visit_ClassDef` fire
on the node itself (guarded by the inclusion flags), then — because both
callbacks return `None` — the traversal always descends into the children,
in document order. -/
def collectNode (tag : String) (incF incC : Bool) : CSTNode → List NodeCollectionResult
  | .functionDef name line header body =>
      (if incF then
        checkNode tag name line (CSTNode.code (.functionDef name line header body)) "function"
      else [])
        ++ collectBody tag incF incC body
  | .classDef name line header body =>
      (if incC then
        checkNode tag name line (CSTNode.code (.classDef name line header body)) "class"
      else [])
        ++ collectBody tag incF incC body
  | .stmt _ => []

/-- The visitor run on a sequence of siblings, left to right. -/
def collectBody (tag : String) (incF incC : Bool) : CSTBody → List NodeCollectionResult
  | .nil => []
  | .cons n ns => collectNode tag incF incC n ++ collectBody tag incF incC ns
end

/-! ### Configuration validation (`ExtractorConfig` pydantic validators) -/

/-- The file-system queries used by `validate_target_path`. -/
structure FileSys where
  pathExists : String → Bool
  isFile : String → Bool

/-- Construction of an `ExtractorConfig`, modelling pydantic validation:
`tag` must be non-empty (`min_length=1`), `target_path` must exist, and a
file target must have the `.py` suffix.  Validation failures are the
`ValueError`s raised before any extraction can start. -/
def validateConfig (fs : FileSys) (tag target : String) (incF incC : Bool)
    (pattern : String) : Except String ExtractorConfig :=
  if tag.length < 1 then
    Except.error "String should have at least 1 character"
  else if fs.pathExists target = false then
    Except.error ("path does not exist: " ++ target)
  else if fs.isFile target && !(strEndsWith target ".py") then
    Except.error ("not a Python file: " ++ target)
  else
    Except.ok { tag := tag, target_path := target, include_functions := incF,
                include_classes := incC, file_pattern := pattern,
                is_single_file := fs.isFile target }

/-! ### The orchestrator (`TagExtractor`) -/

/-- Content of one discovered file: either it parses into a tree (libcst's
round-trip rendering makes the raw text recoverable from the tree), or
`cst.parse_module` fails on it with the given reason. -/
inductive FileContent where
  | parsed (items : CSTBody)
  | malformed (text : String) (reason : String)
deriving DecidableEq

/-- One discovered source file. -/
structure SrcFile where
  path : String
  content : FileContent
deriving DecidableEq

/-- The raw text `file_path.read_text()` returns. -/
def SrcFile.text (f : SrcFile) : String :=
  match f.content with
  | .parsed items => CSTBody.code items
  | .malformed text _ => text

/-- Whether `cst.parse_module` succeeds on the file. -/
def SrcFile.parsesOk (f : SrcFile) : Bool :=
  match f.content with
  | .parsed _ => true
  | .malformed _ _ => false

/-- All position metadata of the file's tree (if any) is 1-based. -/
def SrcFile.wfPos (f : SrcFile) : Bool :=
  match f.content with
  | .parsed items => CSTBody.wfPos items
  | .malformed _ _ => true

/-- All files' position metadata is 1-based (libcst's guarantee). -/
def filesWF (files : List SrcFile) : Bool :=
  files.all SrcFile.wfPos

/-- `file_path.relative_to(base_path)` with the `ValueError` fallback to the
original path used in `TagExtractor._process_file`. -/
def relPath (base p : String) : String :=
  if startsWithL (base.toList ++ [Char.ofNat 47]) p.toList then
    String.mk (p.toList.drop (base.toList.length + 1))
  else p

/-- The mutable state of a `TagExtractor` instance (`__init__` defaults). -/
structure TagExtractor where
  config : ExtractorConfig
  processed_files : Nat := 0
  skipped_files : List String := []
  results : List TaggedCode := []
deriving DecidableEq

/-- A freshly constructed `TagExtractor`. -/
def TagExtractor.init (cfg : ExtractorConfig) : TagExtractor :=
  { config := cfg }

/-- Lift one collector candidate into a `TaggedCode` match for a file. -/
def toTagged (rel : String) (r : NodeCollectionResult) : TaggedCode :=
  { file_path := rel, name := r.name, line_number := r.line_number,
    code := r.code, node_type := r.node_type }

/-- `TagExtractor._process_file`: read the text; if the tag is absent, count
the file processed and move on (the cheap pre-filter); otherwise parse —
`cst.parse_module`'s failure is NOT caught anywhere in `extractor.py`, so a
parse error propagates out (modelled by `Except.error`); on success run the
collector, append the matches (with the path made relative to the base path)
and count the file processed. -/
def processFile (basePath : String) (st : TagExtractor) (f : SrcFile) :
    Except String TagExtractor :=
  if strContains f.text st.config.tag = false then
    Except.ok { st with processed_files := st.processed_files + 1 }
  else
    match f.content with
    | .malformed _ reason =>
        Except.error ("ParserSyntaxError: " ++ f.path ++ ": " ++ reason)
    | .parsed items =>
        let collected := collectBody st.config.tag st.config.include_functions
          st.config.include_classes items
        let rel := relPath basePath f.path
        Except.ok { st with
          results := st.results ++ collected.map (toTagged rel),
          processed_files := st.processed_files + 1 }

/-- The `for file_path in py_files` loop of `TagExtractor.extract`; an
uncaught exception from `_process_file` aborts the loop. -/
def extractLoop (basePath : String) : TagExtractor → List SrcFile → Except String TagExtractor
  | st, [] => Except.ok st
  | st, f :: fs =>
      match processFile basePath st f with
      | Except.ok st' => extractLoop basePath st' fs
      | Except.error e => Except.error e

/-- `TagExtractor.extract` on a freshly constructed extractor, given the
discovered files (the source's early return on an empty file list yields the
same result as running the loop on no files).  `basePath` stands for the
file-system-derived `config.base_path` property. -/
def TagExtractor.extract (cfg : ExtractorConfig) (basePath : String)
    (files : List SrcFile) : Except String ExtractionResult :=
  match extractLoop basePath (TagExtractor.init cfg) files with
  | Except.ok st =>
      Except.ok { config := st.config, results := st.results,
                  processed_files := st.processed_files,
                  skipped_files := st.skipped_files }
  | Except.error e => Except.error e

/-- `TagExtractor._get_python_files`: the single target file in single-file
mode, otherwise `sorted(target_path.rglob(file_pattern))`.  `enumerated` is
the list of matching paths in the order the file system yields them. -/
def getPythonFiles (cfg : ExtractorConfig) (enumerated : List String) : List String :=
  if cfg.is_single_file then [cfg.target_path] else enumerated.mergeSort

/-! ### Refinement comparison variant for the pre-filter -/

/-- Modelled from the spec: the comparison version of `_process_file` that
"always parses and runs the collector", with no raw-text pre-filter branch;
everything after the parse is as in `processFile`. -/
def processFileAlwaysParse (basePath : String) (st : TagExtractor) (f : SrcFile) :
    Except String TagExtractor :=
  match f.content with
  | .malformed _ reason =>
      Except.error ("ParserSyntaxError: " ++ f.path ++ ": " ++ reason)
  | .parsed items =>
      let collected := collectBody st.config.tag st.config.include_functions
        st.config.include_classes items
      let rel := relPath basePath f.path
      Except.ok { st with
        results := st.results ++ collected.map (toTagged rel),
        processed_files := st.processed_files + 1 }

/-- The per-file loop over `processFileAlwaysParse`. -/
def extractLoopAlwaysParse (basePath : String) :
    TagExtractor → List SrcFile → Except String TagExtractor
  | st, [] => Except.ok st
  | st, f :: fs =>
      match processFileAlwaysParse basePath st f with
      | Except.ok st' => extractLoopAlwaysParse basePath st' fs
      | Except.error e => Except.error e

/-- The whole extraction run over the always-parse variant. -/
def extractAlwaysParse (cfg : ExtractorConfig) (basePath : String)
    (files : List SrcFile) : Except String ExtractionResult :=
  match extractLoopAlwaysParse basePath (TagExtractor.init cfg) files with
  | Except.ok st =>
      Except.ok { config := st.config, results := st.results,
                  processed_files := st.processed_files,
                  skipped_files := st.skipped_files }
  | Except.error e => Except.error e

/-! ### Fixtures used by concrete witnesses -/

/-- An inner function whose body text carries the marker; its position
metadata is missing (`none`), exercising the `KeyError` default. -/
def fxInner : CSTNode :=
  CSTNode.functionDef "inner" none "    def inner(self):\n        # TODO: fill in\n        pass\n" CSTBody.nil

/-- A class enclosing `fxInner`; the marker only occurs inside the inner
function. -/
def fxOuter : CSTNode :=
  CSTNode.classDef "C" (some 2) "class C:\n" (CSTBody.cons fxInner CSTBody.nil)

/-- A module tree: a plain leading statement, then `fxOuter`. -/
def fxTree : CSTBody :=
  CSTBody.cons (CSTNode.stmt "import os\n") (CSTBody.cons fxOuter CSTBody.nil)

/-- A well-formed source file built from `fxTree`. -/
def fxFile : SrcFile :=
  { path := "pkg/test.py", content := FileContent.parsed fxTree }

/-- A directory-mode configuration with both kinds enabled. -/
def fxCfg : ExtractorConfig :=
  { tag := "TODO:", target_path := "/root", include_functions := true,
    include_classes := true, file_pattern := "*.py", is_single_file := false }

/-- The result of running the extractor on `fxFile`. -/
def fxRes : ExtractionResult :=
  match TagExtractor.extract fxCfg "/root" [fxFile] with
  | Except.ok r => r
  | Except.error _ => { config := fxCfg, results := [], processed_files := 0, skipped_files := [] }

/-- The first match of `fxRes`. -/
def fxMatch : TaggedCode :=
  fxRes.results.headD
    { file_path := "", name := "", line_number := 1, code := "", node_type := "function" }

/-- A functions-only configuration. -/
def fxCfgF : ExtractorConfig :=
  { fxCfg with include_classes := false }

/-- A classes-only configuration. -/
def fxCfgC : ExtractorConfig :=
  { fxCfg with include_functions := false }

/-- The result of a functions-only run on `fxFile`. -/
def fxResF : ExtractionResult :=
  match TagExtractor.extract fxCfgF "/root" [fxFile] with
  | Except.ok r => r
  | Except.error _ => { config := fxCfgF, results := [], processed_files := 0, skipped_files := [] }

/-- The first match of the functions-only run. -/
def fxMatchF : TaggedCode :=
  fxResF.results.headD
    { file_path := "", name := "", line_number := 1, code := "", node_type := "class" }

/-- The result of a classes-only run on `fxFile`. -/
def fxResC : ExtractionResult :=
  match TagExtractor.extract fxCfgC "/root" [fxFile] with
  | Except.ok r => r
  | Except.error _ => { config := fxCfgC, results := [], processed_files := 0, skipped_files := [] }

/-- The first match of the classes-only run. -/
def fxMatchC : TaggedCode :=
  fxResC.results.headD
    { file_path := "", name := "", line_number := 1, code := "", node_type := "function" }

/-- A body holding one marker-carrying inner function, for the nesting
witness. -/
def fxB : CSTBody :=
  CSTBody.cons
    (CSTNode.functionDef "inner" (some 2) "    def inner():\n        # TODO: z\n        pass\n" CSTBody.nil)
    CSTBody.nil

/-- A file whose text carries the marker but does not parse. -/
def fxBad : SrcFile :=
  { path := "bad.py", content := FileContent.malformed "# TODO: broken\ndef f(:\n" "Syntax Error @ 2:9." }

/-- A file that neither parses nor carries the marker. -/
def fxBadNoTag : SrcFile :=
  { path := "nomark.py", content := FileContent.malformed "def f(:\n" "Syntax Error @ 1:7." }

/-- The file system backing the validation witness: one directory `/tmp/d`
and one non-Python file `/tmp/x.txt`. -/
def fxFs : FileSys :=
  { pathExists := fun p => p == "/tmp/d" || p == "/tmp/x.txt",
    isFile := fun p => p == "/tmp/x.txt" }

/-- A single-file configuration for the discovery witness. -/
def fxCfgSingle : ExtractorConfig :=
  { tag := "TODO:", target_path := "/root/a.py", include_functions := true,
    include_classes := true, file_pattern := "*.py", is_single_file := true }

/-! ### Substring lemmas -/

theorem startsWithL_iff : ∀ (s l : List Char), startsWithL s l = true ↔ ∃ r, l = s ++ r
  | [], l => by simp [startsWithL]
  | _ :: _, [] => by simp [startsWithL]
  | a :: as, b :: bs => by
      simp only [startsWithL, Bool.and_eq_true, beq_iff_eq, List.cons_append]
      rw [startsWithL_iff as bs]
      constructor
      · rintro ⟨rfl, r, rfl⟩
        exact ⟨r, rfl⟩
      · rintro ⟨r, h⟩
        rw [List.cons.injEq] at h
        exact ⟨h.1.symm, r, h.2⟩

theorem containsL_iff : ∀ (t l : List Char), containsL t l = true ↔ ∃ p q, l = p ++ t ++ q
  | t, [] => by
      simp only [containsL, List.isEmpty_iff]
      constructor
      · rintro rfl
        exact ⟨[], [], rfl⟩
      · rintro ⟨p, q, h⟩
        rcases List.append_eq_nil.mp h.symm with ⟨h1, h2⟩
        exact (List.append_eq_nil.mp h1).2
  | t, c :: rest => by
      simp only [containsL, Bool.or_eq_true]
      rw [startsWithL_iff, containsL_iff t rest]
      constructor
      · rintro (⟨r, hr⟩ | ⟨p, q, hpq⟩)
        · exact ⟨[], r, by simpa using hr⟩
        · exact ⟨c :: p, q, by simp [hpq]⟩
      · rintro ⟨p, q, hpq⟩
        cases p with
        | nil => exact Or.inl ⟨q, by simpa using hpq⟩
        | cons x xs =>
            rw [List.cons_append, List.cons_append, List.cons.injEq] at hpq
            exact Or.inr ⟨xs, q, hpq.2⟩

theorem containsL_append_of (t l x y : List Char) (h : containsL t l = true) :
    containsL t (x ++ l ++ y) = true := by
  rw [containsL_iff] at h ⊢
  obtain ⟨p, q, rfl⟩ := h
  exact ⟨x ++ p, q ++ y, by simp⟩

theorem toList_append (s t : String) : (s ++ t).toList = s.toList ++ t.toList := by
  cases s
  cases t
  rfl

theorem strContains_append_left (a b t : String) (h : strContains a t = true) :
    strContains (a ++ b) t = true := by
  unfold strContains at h ⊢
  rw [toList_append]
  simpa using containsL_append_of t.toList a.toList [] b.toList h

theorem strContains_append_right (a b t : String) (h : strContains b t = true) :
    strContains (a ++ b) t = true := by
  unfold strContains at h ⊢
  rw [toList_append]
  simpa using containsL_append_of t.toList b.toList a.toList [] h

/-! ### Collector lemmas -/

theorem lineOf_pos (line : Option Nat) (h : lineOK line = true) : 1 ≤ lineOf line := by
  cases line with
  | none => simp [lineOf]
  | some k => simpa [lineOK, lineOf] using h

mutual
theorem collectNode_ne_nil_contains (tag : String) (incF incC : Bool) :
    ∀ n : CSTNode, collectNode tag incF incC n ≠ [] →
      strContains (CSTNode.code n) tag = true
  | .functionDef name line header body => fun h => by
      by_cases hb : collectBody tag incF incC body = []
      · rw [collectNode, hb, List.append_nil] at h
        cases incF with
        | false => simp at h
        | true =>
            rw [if_pos rfl, checkNode] at h
            by_cases hc :
                strContains (CSTNode.code (.functionDef name line header body)) tag = true
            · exact hc
            · rw [if_neg hc] at h
              simp at h
      · have hc := collectBody_ne_nil_contains tag incF incC body hb
        rw [CSTNode.code]
        exact strContains_append_right _ _ _ hc
  | .classDef name line header body => fun h => by
      by_cases hb : collectBody tag incF incC body = []
      · rw [collectNode, hb, List.append_nil] at h
        cases incC with
        | false => simp at h
        | true =>
            rw [if_pos rfl, checkNode] at h
            by_cases hc :
                strContains (CSTNode.code (.classDef name line header body)) tag = true
            · exact hc
            · rw [if_neg hc] at h
              simp at h
      · have hc := collectBody_ne_nil_contains tag incF incC body hb
        rw [CSTNode.code]
        exact strContains_append_right _ _ _ hc
  | .stmt text => fun h => by
      rw [collectNode] at h
      simp at h

theorem collectBody_ne_nil_contains (tag : String) (incF incC : Bool) :
    ∀ b : CSTBody, collectBody tag incF incC b ≠ [] →
      strContains (CSTBody.code b) tag = true
  | .nil => fun h => by
      rw [collectBody] at h
      simp at h
  | .cons n ns => fun h => by
      by_cases hn : collectNode tag incF incC n = []
      · rw [collectBody, hn, List.nil_append] at h
        have hc := collectBody_ne_nil_contains tag incF incC ns h
        rw [CSTBody.code]
        exact strContains_append_right _ _ _ hc
      · have hc := collectNode_ne_nil_contains tag incF incC n hn
        rw [CSTBody.code]
        exact strContains_append_left _ _ _ hc
end

mutual
theorem collectNode_ne_nil_of_anyTagged (tag : String) :
    ∀ n : CSTNode, CSTNode.anyTagged tag n = true → collectNode tag true true n ≠ []
  | .functionDef name line header body => fun h => by
      rw [CSTNode.anyTagged, Bool.or_eq_true] at h
      rw [collectNode, if_pos rfl, checkNode]
      rcases h with h | h
      · rw [if_pos h]
        simp
      · have hb := collectBody_ne_nil_of_anyTagged tag body h
        intro hcontra
        exact hb (List.append_eq_nil.mp hcontra).2
  | .classDef name line header body => fun h => by
      rw [CSTNode.anyTagged, Bool.or_eq_true] at h
      rw [collectNode, if_pos rfl, checkNode]
      rcases h with h | h
      · rw [if_pos h]
        simp
      · have hb := collectBody_ne_nil_of_anyTagged tag body h
        intro hcontra
        exact hb (List.append_eq_nil.mp hcontra).2
  | .stmt text => fun h => by
      rw [CSTNode.anyTagged] at h
      exact absurd h (by simp)

theorem collectBody_ne_nil_of_anyTagged (tag : String) :
    ∀ b : CSTBody, CSTBody.anyTagged tag b = true → collectBody tag true true b ≠ []
  | .nil => fun h => by
      rw [CSTBody.anyTagged] at h
      exact absurd h (by simp)
  | .cons n ns => fun h => by
      rw [CSTBody.anyTagged, Bool.or_eq_true] at h
      rw [collectBody]
      intro hcontra
      rcases List.append_eq_nil.mp hcontra with ⟨h1, h2⟩
      rcases h with h | h
      · exact collectNode_ne_nil_of_anyTagged tag n h h1
      · exact collectBody_ne_nil_of_anyTagged tag ns h h2
end

mutual
theorem collectNode_classes_off (tag : String) (incF : Bool) :
    ∀ n : CSTNode, collectNode tag incF false n =
      (collectNode tag incF true n).filter (fun r => r.node_type == "function")
  | .functionDef name line header body => by
      rw [collectNode, collectNode, List.filter_append]
      refine congrArg₂ _ ?_ (collectBody_classes_off tag incF body)
      cases incF with
      | false => simp
      | true =>
          rw [if_pos rfl, checkNode]
          by_cases hc :
              strContains (CSTNode.code (.functionDef name line header body)) tag = true
          · rw [if_pos hc]
            simp [List.filter]
          · rw [if_neg hc]
            simp
  | .classDef name line header body => by
      rw [collectNode, collectNode, List.filter_append]
      refine congrArg₂ _ ?_ (collectBody_classes_off tag incF body)
      rw [if_neg (by simp), if_pos rfl, checkNode]
      by_cases hc :
          strContains (CSTNode.code (.classDef name line header body)) tag = true
      · rw [if_pos hc]
        simp [List.filter]
      · rw [if_neg hc]
        simp
  | .stmt text => by
      rw [collectNode, collectNode]
      simp

theorem collectBody_classes_off (tag : String) (incF : Bool) :
    ∀ b : CSTBody, collectBody tag incF false b =
      (collectBody tag incF true b).filter (fun r => r.node_type == "function")
  | .nil => by
      rw [collectBody, collectBody]
      simp
  | .cons n ns => by
      rw [collectBody, collectBody, List.filter_append]
      exact congrArg₂ _ (collectNode_classes_off tag incF n)
        (collectBody_classes_off tag incF ns)
end

mutual
theorem collectNode_functions_off (tag : String) (incC : Bool) :
    ∀ n : CSTNode, collectNode tag false incC n =
      (collectNode tag true incC n).filter (fun r => r.node_type == "class")
  | .functionDef name line header body => by
      rw [collectNode, collectNode, List.filter_append]
      refine congrArg₂ _ ?_ (collectBody_functions_off tag incC body)
      rw [if_neg (by simp), if_pos rfl, checkNode]
      by_cases hc :
          strContains (CSTNode.code (.functionDef name line header body)) tag = true
      · rw [if_pos hc]
        simp [List.filter]
      · rw [if_neg hc]
        simp
  | .classDef name line header body => by
      rw [collectNode, collectNode, List.filter_append]
      refine congrArg₂ _ ?_ (collectBody_functions_off tag incC body)
      cases incC with
      | false => simp
      | true =>
          rw [if_pos rfl, checkNode]
          by_cases hc :
              strContains (CSTNode.code (.classDef name line header body)) tag = true
          · rw [if_pos hc]
            simp [List.filter]
          · rw [if_neg hc]
            simp
  | .stmt text => by
      rw [collectNode, collectNode]
      simp

theorem collectBody_functions_off (tag : String) (incC : Bool) :
    ∀ b : CSTBody, collectBody tag false incC b =
      (collectBody tag true incC b).filter (fun r => r.node_type == "class")
  | .nil => by
      rw [collectBody, collectBody]
      simp
  | .cons n ns => by
      rw [collectBody, collectBody, List.filter_append]
      exact congrArg₂ _ (collectNode_functions_off tag incC n)
        (collectBody_functions_off tag incC ns)
end

mutual
theorem collectNode_mem_inv (tag : String) (incF incC : Bool) :
    ∀ n : CSTNode, CSTNode.wfPos n = true →
      ∀ r ∈ collectNode tag incF incC n,
        strContains r.code tag = true ∧ 1 ≤ r.line_number
  | .functionDef name line header body => fun hwf r hr => by
      rw [CSTNode.wfPos, Bool.and_eq_true] at hwf
      rw [collectNode] at hr
      rcases List.mem_append.mp hr with h | h
      · cases incF with
        | false => simp at h
        | true =>
            rw [if_pos rfl, checkNode] at h
            by_cases hc :
                strContains (CSTNode.code (.functionDef name line header body)) tag = true
            · rw [if_pos hc] at h
              rw [List.mem_singleton] at h
              subst h
              exact ⟨hc, lineOf_pos line hwf.1⟩
            · rw [if_neg hc] at h
              simp at h
      · exact collectBody_mem_inv tag incF incC body hwf.2 r h
  | .classDef name line header body => fun hwf r hr => by
      rw [CSTNode.wfPos, Bool.and_eq_true] at hwf
      rw [collectNode] at hr
      rcases List.mem_append.mp hr with h | h
      · cases incC with
        | false => simp at h
        | true =>
            rw [if_pos rfl, checkNode] at h
            by_cases hc :
                strContains (CSTNode.code (.classDef name line header body)) tag = true
            · rw [if_pos hc] at h
              rw [List.mem_singleton] at h
              subst h
              exact ⟨hc, lineOf_pos line hwf.1⟩
            · rw [if_neg hc] at h
              simp at h
      · exact collectBody_mem_inv tag incF incC body hwf.2 r h
  | .stmt text => fun _ r hr => by
      rw [collectNode] at hr
      simp at hr

theorem collectBody_mem_inv (tag : String) (incF incC : Bool) :
    ∀ b : CSTBody, CSTBody.wfPos b = true →
      ∀ r ∈ collectBody tag incF incC b,
        strContains r.code tag = true ∧ 1 ≤ r.line_number
  | .nil => fun _ r hr => by
      rw [collectBody] at hr
      simp at hr
  | .cons n ns => fun hwf r hr => by
      rw [CSTBody.wfPos, Bool.and_eq_true] at hwf
      rw [collectBody] at hr
      rcases List.mem_append.mp hr with h | h
      · exact collectNode_mem_inv tag incF incC n hwf.1 r h
      · exact collectBody_mem_inv tag incF incC ns hwf.2 r h
end

/-! ### Orchestrator lemmas -/

theorem processFile_ok_cases (basePath : String) (st : TagExtractor) (f : SrcFile)
    (st1 : TagExtractor) (h : processFile basePath st f = Except.ok st1) :
    st1.config = st.config ∧
    (st1.results = st.results ∨
      ∃ items, f.content = FileContent.parsed items ∧
        st1.results = st.results ++
          (collectBody st.config.tag st.config.include_functions
            st.config.include_classes items).map (toTagged (relPath basePath f.path))) := by
  rw [processFile] at h
  by_cases hpre : strContains f.text st.config.tag = false
  · rw [if_pos hpre] at h
    cases h
    exact ⟨rfl, Or.inl rfl⟩
  · rw [if_neg hpre] at h
    cases hcont : f.content with
    | malformed text reason =>
        rw [hcont] at h
        cases h
    | parsed items =>
        rw [hcont] at h
        cases h
        exact ⟨rfl, Or.inr ⟨items, rfl, rfl⟩⟩

theorem extractLoop_results_inv (basePath : String) (cfg : ExtractorConfig)
    (P : TaggedCode → Prop) (W : SrcFile → Bool)
    (hP : ∀ (f : SrcFile) (items : CSTBody) (r : NodeCollectionResult),
      W f = true → f.content = FileContent.parsed items →
      r ∈ collectBody cfg.tag cfg.include_functions cfg.include_classes items →
      P (toTagged (relPath basePath f.path) r)) :
    ∀ (files : List SrcFile) (st st' : TagExtractor),
      st.config = cfg →
      (∀ f ∈ files, W f = true) →
      (∀ m ∈ st.results, P m) →
      extractLoop basePath st files = Except.ok st' →
      ∀ m ∈ st'.results, P m
  | [], st, st', hconf, hW, hres, hloop => by
      rw [extractLoop] at hloop
      cases hloop
      exact hres
  | f :: fs, st, st', hconf, hW, hres, hloop => by
      rw [extractLoop] at hloop
      cases hpf : processFile basePath st f with
      | error e =>
          rw [hpf] at hloop
          cases hloop
      | ok st1 =>
          rw [hpf] at hloop
          obtain ⟨hconf1, hres1⟩ := processFile_ok_cases basePath st f st1 hpf
          refine extractLoop_results_inv basePath cfg P W hP fs st1 st'
            (hconf1.trans hconf) (fun g hg => hW g (List.mem_cons_of_mem f hg)) ?_ hloop
          rcases hres1 with h | ⟨items, hcont, h⟩
          · rw [h]
            exact hres
          · rw [h]
            intro m hm
            rcases List.mem_append.mp hm with hm | hm
            · exact hres m hm
            · obtain ⟨r, hr, rfl⟩ := List.mem_map.mp hm
              rw [hconf] at hr
              exact hP f items r (hW f (List.mem_cons_self f fs)) hcont hr

theorem extract_results_inv (cfg : ExtractorConfig) (basePath : String)
    (files : List SrcFile) (res : ExtractionResult)
    (P : TaggedCode → Prop) (W : SrcFile → Bool)
    (hP : ∀ (f : SrcFile) (items : CSTBody) (r : NodeCollectionResult),
      W f = true → f.content = FileContent.parsed items →
      r ∈ collectBody cfg.tag cfg.include_functions cfg.include_classes items →
      P (toTagged (relPath basePath f.path) r))
    (hW : ∀ f ∈ files, W f = true)
    (hok : TagExtractor.extract cfg basePath files = Except.ok res) :
    ∀ m ∈ res.results, P m := by
  rw [TagExtractor.extract] at hok
  cases hloop : extractLoop basePath (TagExtractor.init cfg) files with
  | error e =>
      rw [hloop] at hok
      cases hok
  | ok st =>
      rw [hloop] at hok
      cases hok
      exact extractLoop_results_inv basePath cfg P W hP files (TagExtractor.init cfg) st
        rfl hW (by simp [TagExtractor.init]) hloop

/-! ### Pre-filter equivalence lemmas -/

theorem processFile_eq_alwaysParse (basePath : String) (st : TagExtractor) (f : SrcFile)
    (h : f.parsesOk = true) :
    processFile basePath st f = processFileAlwaysParse basePath st f := by
  cases f with
  | mk path content =>
      cases content with
      | malformed text reason => simp [SrcFile.parsesOk] at h
      | parsed items =>
          by_cases hc :
              strContains (SrcFile.text ⟨path, FileContent.parsed items⟩)
                st.config.tag = false
          · have hnil : collectBody st.config.tag st.config.include_functions
                st.config.include_classes items = [] := by
              by_contra hne
              have hcon : strContains (SrcFile.text ⟨path, FileContent.parsed items⟩)
                  st.config.tag = true :=
                collectBody_ne_nil_contains st.config.tag
                  st.config.include_functions st.config.include_classes items hne
              rw [hcon] at hc
              exact absurd hc (by simp)
            have hR : processFileAlwaysParse basePath st ⟨path, FileContent.parsed items⟩
                = Except.ok { st with
                    results := st.results ++
                      (collectBody st.config.tag st.config.include_functions
                        st.config.include_classes items).map
                        (toTagged (relPath basePath path)),
                    processed_files := st.processed_files + 1 } := rfl
            rw [hR, hnil, processFile, if_pos hc]
            simp
          · rw [processFile, if_neg hc]
            rfl

theorem extractLoop_eq_alwaysParse (basePath : String) :
    ∀ (files : List SrcFile) (st : TagExtractor),
      files.all SrcFile.parsesOk = true →
      extractLoop basePath st files = extractLoopAlwaysParse basePath st files
  | [], st, _ => rfl
  | f :: fs, st, h => by
      rw [List.all_cons, Bool.and_eq_true] at h
      rw [extractLoop, extractLoopAlwaysParse,
        ← processFile_eq_alwaysParse basePath st f h.1]
      cases processFile basePath st f with
      | error e => rfl
      | ok st1 => exact extractLoop_eq_alwaysParse basePath fs st1 h.2

/-! ### Grouping lemmas -/

theorem groupLookup_insertGroup (item : TaggedCode) (p : String) :
    ∀ g : List (String × List TaggedCode),
      groupLookup (insertGroup g item) p =
        if item.file_path = p then groupLookup g p ++ [item] else groupLookup g p
  | [] => by
      by_cases hp : item.file_path = p <;>
        simp [insertGroup, groupLookup, hp]
  | (k, l) :: rest => by
      by_cases hk : k = item.file_path
      · subst hk
        by_cases hp : item.file_path = p <;>
          simp [insertGroup, groupLookup, hp]
      · by_cases hp : k = p
        · have hip : ¬ item.file_path = p := fun h => hk (hp.trans h.symm)
          have hk2 : ¬ p = item.file_path := fun h => hk (hp.trans h)
          simp [insertGroup, groupLookup, hk, hp, hip, hk2]
        · simp [insertGroup, groupLookup, hk, hp,
            groupLookup_insertGroup item p rest]

theorem groupLookup_foldl (p : String) :
    ∀ (rs : List TaggedCode) (acc : List (String × List TaggedCode)),
      groupLookup (rs.foldl insertGroup acc) p =
        groupLookup acc p ++ rs.filter (fun m => decide (m.file_path = p))
  | [], acc => by simp
  | m :: rs, acc => by
      rw [List.foldl_cons, groupLookup_foldl p rs (insertGroup acc m),
        groupLookup_insertGroup m p acc, List.filter_cons]
      by_cases hp : m.file_path = p
      · rw [if_pos hp, if_pos (by simp [hp])]
        simp
      · rw [if_neg hp, if_neg (by simp [hp])]

/-! ### Claim theorems -/

/-- C1: the claim says a parse failure is recovered per file (recorded in
`skipped_files`, run continues).  The code does the opposite: `_process_file`
calls `cst.parse_module` with no handler and nothing ever appends to
`_skipped_files`, so the first unparsable file that passes the pre-filter
aborts the whole run with the parser's error.  This theorem evaluates the
embedded code at such an input: a run over an unparsable marker-carrying
file followed by a healthy file errors out instead of returning a result
with one skip. -/
theorem extract_aborts_on_parse_failure :
    TagExtractor.extract fxCfg "/root" [fxBad, fxFile]
      = Except.error "ParserSyntaxError: bad.py: Syntax Error @ 2:9." := rfl

/-- C2: two runs of the extraction over the same file set with the same
configuration return element-wise identical match sequences. -/
theorem extract_run_deterministic (cfg : ExtractorConfig) (basePath : String)
    (files : List SrcFile) (res1 res2 : ExtractionResult)
    (h1 : TagExtractor.extract cfg basePath files = Except.ok res1)
    (h2 : TagExtractor.extract cfg basePath files = Except.ok res2) :
    res1.results = res2.results := by
  rw [h1] at h2
  cases h2
  rfl

theorem extract_run_deterministic_witness :
    fxRes.results = fxRes.results :=
  extract_run_deterministic fxCfg "/root" [fxFile] fxRes fxRes rfl rfl

/-- C3: every match of a run contains the marker in its source text and has
start line at least 1 (position metadata being 1-based is libcst's
guarantee, hypothesis `filesWF`); and a candidate emitted for a declaration
whose position metadata is missing gets start line 1. -/
theorem match_invariants (cfg : ExtractorConfig) (basePath : String)
    (files : List SrcFile) (res : ExtractionResult)
    (hwf : filesWF files = true)
    (hok : TagExtractor.extract cfg basePath files = Except.ok res) :
    (∀ m ∈ res.results, strContains m.code cfg.tag = true ∧ 1 ≤ m.line_number) ∧
    (∀ (tag name header : String) (body : CSTBody) (incF incC : Bool)
        (r : NodeCollectionResult),
      r ∈ collectNode tag incF incC (CSTNode.functionDef name none header body) →
      r ∉ collectBody tag incF incC body →
      r.line_number = 1) ∧
    (∀ (tag name header : String) (body : CSTBody) (incF incC : Bool)
        (r : NodeCollectionResult),
      r ∈ collectNode tag incF incC (CSTNode.classDef name none header body) →
      r ∉ collectBody tag incF incC body →
      r.line_number = 1) := by
  refine ⟨?_, ?_, ?_⟩
  · intro m hm
    refine extract_results_inv cfg basePath files res
      (fun m => strContains m.code cfg.tag = true ∧ 1 ≤ m.line_number)
      SrcFile.wfPos ?_ ?_ hok m hm
    · intro f items r hW hcont hr
      have hwfb : CSTBody.wfPos items = true := by
        simpa [SrcFile.wfPos, hcont] using hW
      exact collectBody_mem_inv cfg.tag cfg.include_functions cfg.include_classes
        items hwfb r hr
    · intro f hf
      rw [filesWF] at hwf
      exact List.all_eq_true.mp hwf f hf
  · intro tag name header body incF incC r hr hnb
    rw [collectNode] at hr
    rcases List.mem_append.mp hr with h | h
    · cases incF with
      | false => simp at h
      | true =>
          rw [if_pos rfl, checkNode] at h
          by_cases hc :
              strContains (CSTNode.code (.functionDef name none header body)) tag = true
          · rw [if_pos hc, List.mem_singleton] at h
            subst h
            rfl
          · rw [if_neg hc] at h
            simp at h
    · exact absurd h hnb
  · intro tag name header body incF incC r hr hnb
    rw [collectNode] at hr
    rcases List.mem_append.mp hr with h | h
    · cases incC with
      | false => simp at h
      | true =>
          rw [if_pos rfl, checkNode] at h
          by_cases hc :
              strContains (CSTNode.code (.classDef name none header body)) tag = true
          · rw [if_pos hc, List.mem_singleton] at h
            subst h
            rfl
          · rw [if_neg hc] at h
            simp at h
    · exact absurd h hnb

theorem match_invariants_witness :
    strContains fxMatch.code fxCfg.tag = true ∧ 1 ≤ fxMatch.line_number :=
  (match_invariants fxCfg "/root" [fxFile] fxRes (by decide) rfl).1 fxMatch (by decide)

/-- C4: when some declaration nested in `body` carries the marker and both
kinds are enabled, the enclosing declaration (function or class alike)
produces a candidate too — its rendered text contains the nested one's — and
it is emitted first (document order), followed by the inner candidates. -/
theorem nested_declaration_double_count (tag name : String) (line : Option Nat)
    (header : String) (body : CSTBody)
    (h : CSTBody.anyTagged tag body = true) :
    collectBody tag true true body ≠ [] ∧
    collectNode tag true true (CSTNode.functionDef name line header body) =
      { name := name, line_number := lineOf line,
        code := CSTNode.code (CSTNode.functionDef name line header body),
        node_type := "function" } :: collectBody tag true true body ∧
    collectNode tag true true (CSTNode.classDef name line header body) =
      { name := name, line_number := lineOf line,
        code := CSTNode.code (CSTNode.classDef name line header body),
        node_type := "class" } :: collectBody tag true true body := by
  have hne := collectBody_ne_nil_of_anyTagged tag body h
  have hcb := collectBody_ne_nil_contains tag true true body hne
  refine ⟨hne, ?_, ?_⟩
  · have hcf : strContains
        (CSTNode.code (CSTNode.functionDef name line header body)) tag = true := by
      rw [CSTNode.code]
      exact strContains_append_right _ _ _ hcb
    rw [collectNode, if_pos rfl, checkNode, if_pos hcf]
    rfl
  · have hcc : strContains
        (CSTNode.code (CSTNode.classDef name line header body)) tag = true := by
      rw [CSTNode.code]
      exact strContains_append_right _ _ _ hcb
    rw [collectNode, if_pos rfl, checkNode, if_pos hcc]
    rfl

theorem nested_declaration_double_count_witness :
    collectNode "TODO:" true true
        (CSTNode.functionDef "outer" (some 1) "def outer():\n" fxB) =
      { name := "outer", line_number := lineOf (some 1),
        code := CSTNode.code (CSTNode.functionDef "outer" (some 1) "def outer():\n" fxB),
        node_type := "function" } :: collectBody "TODO:" true true fxB :=
  (nested_declaration_double_count "TODO:" "outer" (some 1) "def outer():\n" fxB
    (by decide)).2.1

/-- C5 counterexample: the claim quantifies over every file without the
marker in its raw text, but on an unparsable marker-free file the
pre-filtering code processes the file while the always-parse variant aborts
with the parse error, so the two final results differ. -/
theorem prefilter_vs_always_parse_counterexample :
    TagExtractor.extract fxCfg "" [fxBadNoTag]
      = Except.ok { config := fxCfg, results := [], processed_files := 1,
                    skipped_files := [] } ∧
    extractAlwaysParse fxCfg "" [fxBadNoTag]
      = Except.error "ParserSyntaxError: nomark.py: Syntax Error @ 1:7." ∧
    TagExtractor.extract fxCfg "" [fxBadNoTag]
      ≠ extractAlwaysParse fxCfg "" [fxBadNoTag] := by
  refine ⟨rfl, rfl, fun hcontra => ?_⟩
  rw [show TagExtractor.extract fxCfg "" [fxBadNoTag]
        = Except.ok { config := fxCfg, results := [], processed_files := 1,
                      skipped_files := [] } from rfl,
      show extractAlwaysParse fxCfg "" [fxBadNoTag]
        = Except.error "ParserSyntaxError: nomark.py: Syntax Error @ 1:7." from rfl]
    at hcontra
  exact Except.noConfusion hcontra

/-- C5 amended: over file sets whose members all parse, the pre-filtering
extraction and the always-parse variant return the same final result; and a
parseable file without the marker in its text only increments the processed
counter (it contributes no match). -/
theorem prefilter_refines_always_parse (cfg : ExtractorConfig) (basePath : String) :
    (∀ files : List SrcFile, files.all SrcFile.parsesOk = true →
      TagExtractor.extract cfg basePath files = extractAlwaysParse cfg basePath files) ∧
    (∀ (st : TagExtractor) (path : String) (items : CSTBody),
      strContains (CSTBody.code items) st.config.tag = false →
      processFile basePath st ⟨path, FileContent.parsed items⟩
        = Except.ok { st with processed_files := st.processed_files + 1 }) := by
  constructor
  · intro files hall
    rw [TagExtractor.extract, extractAlwaysParse,
      extractLoop_eq_alwaysParse basePath files (TagExtractor.init cfg) hall]
  · intro st path items hc
    have hc2 : strContains (SrcFile.text ⟨path, FileContent.parsed items⟩)
        st.config.tag = false := hc
    rw [processFile, if_pos hc2]

theorem prefilter_refines_always_parse_witness :
    TagExtractor.extract fxCfg "/root" [fxFile]
      = extractAlwaysParse fxCfg "/root" [fxFile] :=
  (prefilter_refines_always_parse fxCfg "/root").1 [fxFile] (by decide)

/-- C6: with only functions enabled every match is function-kind, and with
only classes enabled every match is class-kind. -/
theorem kind_restriction (cfg : ExtractorConfig) (basePath : String)
    (files : List SrcFile) (res : ExtractionResult) :
    (cfg.include_functions = true → cfg.include_classes = false →
      TagExtractor.extract cfg basePath files = Except.ok res →
      ∀ m ∈ res.results, m.node_type = "function") ∧
    (cfg.include_classes = true → cfg.include_functions = false →
      TagExtractor.extract cfg basePath files = Except.ok res →
      ∀ m ∈ res.results, m.node_type = "class") := by
  constructor
  · intro _ hC hok
    refine extract_results_inv cfg basePath files res
      (fun m => m.node_type = "function") (fun _ => true) ?_ (fun f _ => rfl) hok
    intro f items r _ _ hr
    rw [hC, collectBody_classes_off cfg.tag cfg.include_functions items] at hr
    have hb : (r.node_type == "function") = true := (List.mem_filter.mp hr).2
    exact eq_of_beq hb
  · intro _ hF hok
    refine extract_results_inv cfg basePath files res
      (fun m => m.node_type = "class") (fun _ => true) ?_ (fun f _ => rfl) hok
    intro f items r _ _ hr
    rw [hF, collectBody_functions_off cfg.tag cfg.include_classes items] at hr
    have hb : (r.node_type == "class") = true := (List.mem_filter.mp hr).2
    exact eq_of_beq hb

theorem kind_restriction_witness :
    fxMatchF.node_type = "function" ∧ fxMatchC.node_type = "class" :=
  ⟨(kind_restriction fxCfgF "/root" [fxFile] fxResF).1 rfl rfl rfl fxMatchF (by decide),
   (kind_restriction fxCfgC "/root" [fxFile] fxResC).2 rfl rfl rfl fxMatchC (by decide)⟩

/-- C7: file discovery returns exactly the target in single-file mode, and
otherwise the lexicographically sorted enumeration, which is a permutation
of what the file system yields and is the same list for any enumeration
order. -/
theorem file_discovery_spec (cfg : ExtractorConfig) (enumerated : List String) :
    (cfg.is_single_file = true → getPythonFiles cfg enumerated = [cfg.target_path]) ∧
    (cfg.is_single_file = false →
      (getPythonFiles cfg enumerated).Sorted (· ≤ ·) ∧
      (getPythonFiles cfg enumerated).Perm enumerated ∧
      ∀ enumerated2 : List String, enumerated2.Perm enumerated →
        getPythonFiles cfg enumerated2 = getPythonFiles cfg enumerated) := by
  constructor
  · intro h
    rw [getPythonFiles, if_pos h]
  · intro h
    have hneg : ¬ cfg.is_single_file = true := by
      rw [h]
      exact Bool.false_ne_true
    rw [getPythonFiles, if_neg hneg]
    refine ⟨List.sorted_mergeSort' enumerated, List.mergeSort_perm enumerated _, ?_⟩
    intro enumerated2 hperm
    rw [getPythonFiles, if_neg hneg]
    exact List.eq_of_perm_of_sorted
      ((List.mergeSort_perm enumerated2 _).trans
        (hperm.trans (List.mergeSort_perm enumerated _).symm))
      (List.sorted_mergeSort' enumerated2) (List.sorted_mergeSort' enumerated)

theorem file_discovery_witness :
    getPythonFiles fxCfgSingle ["zzz.py"] = ["/root/a.py"] ∧
    (getPythonFiles fxCfg ["a.py"]).Sorted (· ≤ ·) :=
  ⟨(file_discovery_spec fxCfgSingle ["zzz.py"]).1 rfl,
   ((file_discovery_spec fxCfg ["a.py"]).2 rfl).1⟩

/-- C8: validation fails (no configuration is produced, so extraction cannot
begin) on an empty tag, a nonexistent target path, or a file target without
the `.py` suffix. -/
theorem config_validation (fs : FileSys) (tag target : String) (incF incC : Bool)
    (pattern : String) :
    (tag = "" → (validateConfig fs tag target incF incC pattern).isOk = false) ∧
    (fs.pathExists target = false →
      (validateConfig fs tag target incF incC pattern).isOk = false) ∧
    (fs.isFile target = true → strEndsWith target ".py" = false →
      (validateConfig fs tag target incF incC pattern).isOk = false) := by
  refine ⟨?_, ?_, ?_⟩
  · intro h
    subst h
    rw [validateConfig, if_pos (show String.length "" < 1 by decide)]
    rfl
  · intro h
    rw [validateConfig]
    by_cases h1 : tag.length < 1
    · rw [if_pos h1]
      rfl
    · rw [if_neg h1, if_pos h]
      rfl
  · intro h hsuf
    rw [validateConfig]
    by_cases h1 : tag.length < 1
    · rw [if_pos h1]
      rfl
    · rw [if_neg h1]
      by_cases h2 : fs.pathExists target = false
      · rw [if_pos h2]
        rfl
      · rw [if_neg h2,
          if_pos (show (fs.isFile target && !(strEndsWith target ".py")) = true by
            rw [h, hsuf]
            rfl)]
        rfl

theorem config_validation_witness :
    (validateConfig fxFs "" "/tmp/d" true true "*.py").isOk = false ∧
    (validateConfig fxFs "TODO:" "/nope" true true "*.py").isOk = false ∧
    (validateConfig fxFs "TODO:" "/tmp/x.txt" true true "*.py").isOk = false :=
  ⟨(config_validation fxFs "" "/tmp/d" true true "*.py").1 rfl,
   (config_validation fxFs "TODO:" "/nope" true true "*.py").2.1 (by decide),
   (config_validation fxFs "TODO:" "/tmp/x.txt" true true "*.py").2.2
     (by decide) (by decide)⟩

/-- C9: `total_matches` is the length of the match sequence, and the group
of any file path in `group_by_file` is exactly the subsequence of matches
with that path, in discovery order; consequently every match lies in the
group of its own path (and in no other, since every member of a group has
that group's path). -/
theorem result_grouping (res : ExtractionResult) (p : String) :
    res.total_matches = res.results.length ∧
    groupLookup res.group_by_file p
      = res.results.filter (fun m => decide (m.file_path = p)) ∧
    ∀ m ∈ res.results, m ∈ groupLookup res.group_by_file m.file_path := by
  refine ⟨rfl, ?_, ?_⟩
  · rw [ExtractionResult.group_by_file, groupLookup_foldl p res.results []]
    simp [groupLookup]
  · intro m hm
    rw [ExtractionResult.group_by_file, groupLookup_foldl m.file_path res.results []]
    simp only [groupLookup, List.nil_append]
    exact List.mem_filter.mpr ⟨hm, by simp⟩

theorem result_grouping_witness :
    fxRes.total_matches = fxRes.results.length ∧
    fxMatch ∈ groupLookup fxRes.group_by_file fxMatch.file_path :=
  ⟨(result_grouping fxRes "pkg/test.py").1,
   (result_grouping fxRes "pkg/test.py").2.2 fxMatch (by decide)⟩

/-- C10: turning classes off leaves exactly the function-kind subsequence of
what a both-kinds run collects, and turning functions off leaves exactly the
class-kind subsequence — the visitor descends into children regardless of
the flags, so nested declarations of the enabled kind are still found. -/
theorem flag_independence (tag : String) (n : CSTNode) :
    (∀ incF, collectNode tag incF false n
      = (collectNode tag incF true n).filter (fun r => r.node_type == "function")) ∧
    (∀ incC, collectNode tag false incC n
      = (collectNode tag true incC n).filter (fun r => r.node_type == "class")) :=
  ⟨fun incF => collectNode_classes_off tag incF n,
   fun incC => collectNode_functions_off tag incC n⟩

end Tagex
